import Mathlib

/-!
Shallow embedding of the batching library in src/src/lib.rs.

The Rust crate defines:
- a trait Unit with an associated ID type and a pure method id();
  we model a unit type as a type U together with a function uid : U → ID,
  where ID has decidable equality (modelling the Rust Eq + Hash bounds);
- VecBatcher, an accumulator backed by a Vec, with new_unit (push) and
  release (mem::take, returning the pending vector and leaving it empty);
- PolicyKind, an enum of release policies: BySize (length threshold) and
  ByList (a HashSet of target identifiers, modelled as a Finset);
- PolicyBatcher, the facade composing a VecBatcher with a PolicyKind,
  implementing the Batcher trait: new_unit pushes the unit, consults the
  policy and either keeps batching (returning none) or drains the backend
  (returning some batch); release consumes the facade and drains the
  backend unconditionally.

Mutation is modelled by explicit state passing: each Rust method taking
&mut self becomes a function returning the updated state alongside its
result.  Batcher::release takes self by value in Rust (the facade cannot
be used afterwards); accordingly our PolicyBatcher.release returns only
the drained list and no successor state.
-/

namespace BatcherRs

variable {U ID : Type}

/-- Accumulator backed by a vector: field pending mirrors
VecBatcher.pending in the source. -/
structure VecBatcher (U : Type) where
  pending : List U
  deriving DecidableEq, Repr

/-- VecBatcher::new constructs an empty accumulator. -/
def VecBatcher.new : VecBatcher U :=
  { pending := [] }

/-- VecBatcher::new_unit pushes the unit at the end of the pending vector. -/
def VecBatcher.new_unit (b : VecBatcher U) (u : U) : VecBatcher U :=
  { pending := b.pending ++ [u] }

/-- VecBatcher::release performs mem::take on pending: it returns the
current pending vector together with the emptied accumulator. -/
def VecBatcher.release (b : VecBatcher U) : List U × VecBatcher U :=
  (b.pending, { pending := [] })

/-- Enum indicating whether a batch is ready or should be further built. -/
inductive BatchStatus where
  | KeepBatching
  | ReleaseBatch
  deriving DecidableEq, Repr

/-- The From bool impl for BatchStatus in the source. -/
def BatchStatus.ofBool : Bool → BatchStatus
  | true => BatchStatus.ReleaseBatch
  | false => BatchStatus.KeepBatching

/-- The PolicyKind enum: BySize holds a usize threshold (modelled as Nat),
ByList holds a HashSet of identifiers (modelled as a Finset). -/
inductive PolicyKind (ID : Type) where
  | BySize (max_size : Nat)
  | ByList (set : Finset ID)

/-- PolicyKind::outcome: pure read of the accumulator.  BySize releases iff
the pending length has reached the threshold; ByList releases iff the set of
distinct identifiers of the pending units equals the target set. -/
def PolicyKind.outcome [DecidableEq ID] (uid : U → ID) (p : PolicyKind ID)
    (batch : VecBatcher U) : BatchStatus :=
  match p with
  | PolicyKind.BySize max_size =>
      BatchStatus.ofBool (decide (batch.pending.length ≥ max_size))
  | PolicyKind.ByList set =>
      BatchStatus.ofBool (decide ((batch.pending.map uid).toFinset = set))

/-- The PolicyBatcher facade: a VecBatcher backend plus a PolicyKind. -/
structure PolicyBatcher (U ID : Type) where
  backend : VecBatcher U
  policy : PolicyKind ID

/-- PolicyBatcher::new: fresh empty backend with the supplied policy. -/
def PolicyBatcher.new (policy : PolicyKind ID) : PolicyBatcher U ID :=
  { backend := VecBatcher.new, policy := policy }

/-- Batcher::new_unit for PolicyBatcher: push the unit into the backend,
consult the policy on the updated backend, and either keep batching
(returning none) or drain the backend and return the batch. -/
def PolicyBatcher.new_unit [DecidableEq ID] (uid : U → ID)
    (pb : PolicyBatcher U ID) (u : U) :
    Option (List U) × PolicyBatcher U ID :=
  let backend := pb.backend.new_unit u
  match pb.policy.outcome uid backend with
  | BatchStatus.KeepBatching => (none, { backend := backend, policy := pb.policy })
  | BatchStatus.ReleaseBatch =>
      (some (backend.release).1, { backend := (backend.release).2, policy := pb.policy })

/-- Batcher::release for PolicyBatcher: drains the backend unconditionally.
It takes self by value in Rust, so no successor state is returned. -/
def PolicyBatcher.release (pb : PolicyBatcher U ID) : List U :=
  (pb.backend.release).1

/-- Iterated driver: feed a list of units one by one through new_unit,
collecting the per-call results and the final facade state.  This mirrors
the insertion loop of the crate's test harness. -/
def newUnits [DecidableEq ID] (uid : U → ID) (pb : PolicyBatcher U ID) :
    List U → List (Option (List U)) × PolicyBatcher U ID
  | [] => ([], pb)
  | u :: us =>
      let step := pb.new_unit uid u
      let rest := newUnits uid step.2 us
      (step.1 :: rest.1, rest.2)

end BatcherRs

namespace BatcherRs

variable {U ID : Type}

/-- Characterization of one new_unit step under a BySize policy. -/
lemma new_unit_bySize (uid : U → ID) [DecidableEq ID] (n : Nat) (p : List U) (u : U) :
    PolicyBatcher.new_unit uid ⟨⟨p⟩, PolicyKind.BySize n⟩ u
      = if n ≤ p.length + 1
          then (some (p ++ [u]), ⟨⟨[]⟩, PolicyKind.BySize n⟩)
          else (none, ⟨⟨p ++ [u]⟩, PolicyKind.BySize n⟩) := by
  by_cases h : n ≤ p.length + 1
  · have hd : decide ((p ++ [u]).length ≥ n) = true :=
      decide_eq_true (by simp; omega)
    rw [if_pos h]
    simp only [PolicyBatcher.new_unit, PolicyKind.outcome, VecBatcher.new_unit,
      VecBatcher.release, hd, BatchStatus.ofBool]
  · have hd : decide ((p ++ [u]).length ≥ n) = false :=
      decide_eq_false (by simp; omega)
    rw [if_neg h]
    simp only [PolicyBatcher.new_unit, PolicyKind.outcome, VecBatcher.new_unit,
      VecBatcher.release, hd, BatchStatus.ofBool]

/-- Characterization of one new_unit step under a ByList policy. -/
lemma new_unit_byList (uid : U → ID) [DecidableEq ID] (S : Finset ID) (p : List U) (u : U) :
    PolicyBatcher.new_unit uid ⟨⟨p⟩, PolicyKind.ByList S⟩ u
      = if ((p ++ [u]).map uid).toFinset = S
          then (some (p ++ [u]), ⟨⟨[]⟩, PolicyKind.ByList S⟩)
          else (none, ⟨⟨p ++ [u]⟩, PolicyKind.ByList S⟩) := by
  by_cases h : ((p ++ [u]).map uid).toFinset = S
  · have hd : decide (((p ++ [u]).map uid).toFinset = S) = true := decide_eq_true h
    rw [if_pos h]
    simp only [PolicyBatcher.new_unit, PolicyKind.outcome, VecBatcher.new_unit,
      VecBatcher.release, hd, BatchStatus.ofBool]
  · have hd : decide (((p ++ [u]).map uid).toFinset = S) = false := decide_eq_false h
    rw [if_neg h]
    simp only [PolicyBatcher.new_unit, PolicyKind.outcome, VecBatcher.new_unit,
      VecBatcher.release, hd, BatchStatus.ofBool]

/-- Each new_unit call either keeps batching, leaving the appended sequence
in place, or releases the appended sequence and empties the backend; the
policy is untouched either way. -/
lemma new_unit_cases (uid : U → ID) [DecidableEq ID] (pb : PolicyBatcher U ID) (u : U) :
    PolicyBatcher.new_unit uid pb u
        = (none, ⟨⟨pb.backend.pending ++ [u]⟩, pb.policy⟩)
    ∨ PolicyBatcher.new_unit uid pb u
        = (some (pb.backend.pending ++ [u]), ⟨⟨[]⟩, pb.policy⟩) := by
  cases h : pb.policy.outcome uid ⟨pb.backend.pending ++ [u]⟩ with
  | KeepBatching =>
      left
      simp only [PolicyBatcher.new_unit, VecBatcher.new_unit, h]
  | ReleaseBatch =>
      right
      simp only [PolicyBatcher.new_unit, VecBatcher.new_unit, VecBatcher.release, h]

/-- Feeding an appended list of units is the same as feeding the two parts
in sequence. -/
lemma newUnits_append (uid : U → ID) [DecidableEq ID] (pb : PolicyBatcher U ID)
    (xs ys : List U) :
    newUnits uid pb (xs ++ ys)
      = ((newUnits uid pb xs).1 ++ (newUnits uid (newUnits uid pb xs).2 ys).1,
         (newUnits uid (newUnits uid pb xs).2 ys).2) := by
  induction xs generalizing pb with
  | nil => simp [newUnits]
  | cons x xs ih => simp [newUnits, ih]

/-- Run lemma for BySize: while the threshold stays strictly above the
accumulated length, every call keeps batching and units pile up. -/
lemma newUnits_bySize_keep (uid : U → ID) [DecidableEq ID] (n : Nat) (p us : List U)
    (h : p.length + us.length < n) :
    newUnits uid ⟨⟨p⟩, PolicyKind.BySize n⟩ us
      = (List.replicate us.length none, ⟨⟨p ++ us⟩, PolicyKind.BySize n⟩) := by
  induction us generalizing p with
  | nil => simp [newUnits]
  | cons u us ih =>
      have hlt : ¬ n ≤ p.length + 1 := by simp at h; omega
      have hstep : PolicyBatcher.new_unit uid ⟨⟨p⟩, PolicyKind.BySize n⟩ u
          = (none, ⟨⟨p ++ [u]⟩, PolicyKind.BySize n⟩) := by
        rw [new_unit_bySize, if_neg hlt]
      have hrec := ih (p ++ [u]) (by simp at h ⊢; omega)
      simp [newUnits, hstep, hrec, List.replicate_succ]

/-- Run lemma for ByList: while no prefix of the accumulated identifiers
reaches the target set, every call keeps batching and units pile up. -/
lemma newUnits_byList_keep (uid : U → ID) [DecidableEq ID] (S : Finset ID) (p us : List U)
    (h : ∀ k, 0 < k → k ≤ us.length → ((p ++ us.take k).map uid).toFinset ≠ S) :
    newUnits uid ⟨⟨p⟩, PolicyKind.ByList S⟩ us
      = (List.replicate us.length none, ⟨⟨p ++ us⟩, PolicyKind.ByList S⟩) := by
  induction us generalizing p with
  | nil => simp [newUnits]
  | cons u us ih =>
      have h1 : ((p ++ [u]).map uid).toFinset ≠ S := by
        have := h 1 (by omega) (by simp)
        simpa using this
      have hstep : PolicyBatcher.new_unit uid ⟨⟨p⟩, PolicyKind.ByList S⟩ u
          = (none, ⟨⟨p ++ [u]⟩, PolicyKind.ByList S⟩) := by
        rw [new_unit_byList, if_neg h1]
      have hrec := ih (p ++ [u]) (by
        intro k hk hk2
        have := h (k + 1) (by omega) (by simp; omega)
        simpa [List.append_assoc] using this)
      simp [newUnits, hstep, hrec, List.replicate_succ]

/-- From an empty backend, one new_unit call either releases the singleton
batch of the inserted unit or keeps it as the sole pending unit. -/
lemma new_unit_from_empty (uid : U → ID) [DecidableEq ID] (pol : PolicyKind ID) (v : U) :
    ((PolicyBatcher.new_unit uid ⟨⟨[]⟩, pol⟩ v).1 = some [v]
      ∧ (PolicyBatcher.new_unit uid ⟨⟨[]⟩, pol⟩ v).2.backend.pending = [])
    ∨ ((PolicyBatcher.new_unit uid ⟨⟨[]⟩, pol⟩ v).1 = none
      ∧ (PolicyBatcher.new_unit uid ⟨⟨[]⟩, pol⟩ v).2.backend.pending = [v]) := by
  rcases new_unit_cases uid (⟨⟨[]⟩, pol⟩ : PolicyBatcher U ID) v with hv | hv
  · right
    rw [hv]
    exact ⟨rfl, rfl⟩
  · left
    rw [hv]
    exact ⟨rfl, rfl⟩

/-- C5: Batcher::release on PolicyBatcher returns exactly the currently
accumulated units in insertion order, for every policy and every pending
state (including the empty one), regardless of the policy's outcome.  In
Rust release takes self by value, so the facade is consumed; accordingly
the embedding returns only the drained list, with no successor state. -/
theorem force_release_returns_pending (pol : PolicyKind ID) (p : List U) :
    PolicyBatcher.release (⟨⟨p⟩, pol⟩ : PolicyBatcher U ID) = p := rfl

/-- C6: VecBatcher::release (the drain) returns all currently held units in
insertion order with no deduplication, resets the pending sequence to
empty, and a second consecutive drain returns the empty sequence; it is a
total function, so it never fails. -/
theorem drain_returns_all_and_resets (b : VecBatcher U) :
    (b.release).1 = b.pending
    ∧ (b.release).2.pending = []
    ∧ ((b.release).2.release).1 = [] :=
  ⟨rfl, rfl, rfl⟩

/-- C7: policy evaluation is pure: PolicyKind.outcome is a function from
the policy and the accumulator to a BatchStatus and produces no state (so
it cannot mutate the accumulator), new_unit never changes the policy
configuration, and when the policy says keep-batching the only state change
of new_unit is that the pending sequence becomes the old sequence with the
new unit appended. -/
theorem policy_evaluation_frame (uid : U → ID) [DecidableEq ID]
    (pb : PolicyBatcher U ID) (u : U) :
    (PolicyBatcher.new_unit uid pb u).2.policy = pb.policy
    ∧ ((PolicyBatcher.new_unit uid pb u).1 = none →
        (PolicyBatcher.new_unit uid pb u).2.backend.pending
          = pb.backend.pending ++ [u]) := by
  rcases new_unit_cases uid pb u with hc | hc
  · rw [hc]
    exact ⟨rfl, fun _ => rfl⟩
  · rw [hc]
    refine ⟨rfl, fun hnone => ?_⟩
    simp at hnone

/-- Witness for C7 at a concrete keep-batching call. -/
theorem policy_evaluation_frame_witness :
    (PolicyBatcher.new_unit (fun x : Nat => x)
        (PolicyBatcher.new (PolicyKind.BySize 2)) 3).2.backend.pending = [3] := by
  have h := policy_evaluation_frame (fun x : Nat => x)
    (PolicyBatcher.new (PolicyKind.BySize 2)) 3
  have h2 := h.2 (by decide)
  simpa [PolicyBatcher.new, VecBatcher.new] using h2

/-- C8: every facade operation is total: for every policy configuration
(including BySize 0 and ByList empty) and every unit, new_unit returns
either none (keep batching) or some batch — the batch being the appended
pending sequence — with no third case and no error outcome, and release
always returns the pending sequence. -/
theorem operations_total (uid : U → ID) [DecidableEq ID]
    (pb : PolicyBatcher U ID) (u : U) :
    ((PolicyBatcher.new_unit uid pb u).1 = none
      ∨ (PolicyBatcher.new_unit uid pb u).1 = some (pb.backend.pending ++ [u]))
    ∧ PolicyBatcher.release pb = pb.backend.pending := by
  refine ⟨?_, rfl⟩
  rcases new_unit_cases uid pb u with hc | hc
  · left
    rw [hc]
  · right
    rw [hc]

/-- C9: under BySize 0 and BySize 1 alike, the very first new_unit call on
a fresh facade releases a one-element batch holding exactly the inserted
unit, and afterwards the facade equals a fresh one.  The policy is only
consulted inside new_unit, after the unit has been pushed, so no release
can be observed before any insertion. -/
theorem bySize_zero_one_immediate_release (uid : U → ID) [DecidableEq ID] (u : U) :
    PolicyBatcher.new_unit uid (PolicyBatcher.new (PolicyKind.BySize 0)) u
      = (some [u], PolicyBatcher.new (PolicyKind.BySize 0))
    ∧ PolicyBatcher.new_unit uid (PolicyBatcher.new (PolicyKind.BySize 1)) u
      = (some [u], PolicyBatcher.new (PolicyKind.BySize 1)) := by
  constructor <;>
    simp [PolicyBatcher.new, VecBatcher.new, new_unit_bySize]

/-- C3: for every policy and every state in which new_unit releases a
batch, the accumulator is empty immediately afterwards, and the facade
stays usable: the next new_unit call works on a batch containing only the
newly inserted unit — either keeping it as the sole pending unit or
releasing it as a singleton batch. -/
theorem release_resets_accumulator (uid : U → ID) [DecidableEq ID]
    (pb : PolicyBatcher U ID) (u : U) (batch : List U)
    (h : (PolicyBatcher.new_unit uid pb u).1 = some batch) :
    (PolicyBatcher.new_unit uid pb u).2.backend.pending = []
    ∧ ∀ v : U,
        ((PolicyBatcher.new_unit uid (PolicyBatcher.new_unit uid pb u).2 v).1 = some [v]
          ∧ (PolicyBatcher.new_unit uid
              (PolicyBatcher.new_unit uid pb u).2 v).2.backend.pending = [])
        ∨ ((PolicyBatcher.new_unit uid (PolicyBatcher.new_unit uid pb u).2 v).1 = none
          ∧ (PolicyBatcher.new_unit uid
              (PolicyBatcher.new_unit uid pb u).2 v).2.backend.pending = [v]) := by
  rcases new_unit_cases uid pb u with hc | hc
  · rw [hc] at h
    simp at h
  · rw [hc]
    exact ⟨rfl, fun v => new_unit_from_empty uid pb.policy v⟩

/-- Witness for C3 at a concrete releasing call. -/
theorem release_resets_accumulator_witness :
    (PolicyBatcher.new_unit (fun x : Nat => x)
        (PolicyBatcher.new (PolicyKind.BySize 1)) 5).2.backend.pending = [] :=
  (release_resets_accumulator (fun x : Nat => x)
    (PolicyBatcher.new (PolicyKind.BySize 1)) 5 [5] (by decide)).1

/-- C1: under BySize N with N ≥ 1, feeding exactly N units into a fresh
facade yields none on each of the first N - 1 calls and some batch on the
N-th call, the batch being exactly the N inserted units in insertion
order. -/
theorem size_threshold_first_release (uid : U → ID) [DecidableEq ID] (N : Nat)
    (hN : 1 ≤ N) (us : List U) (hlen : us.length = N) :
    (newUnits uid (PolicyBatcher.new (PolicyKind.BySize N)) us).1
      = List.replicate (N - 1) none ++ [some us] := by
  have hne : us ≠ [] := by
    intro hnil
    rw [hnil] at hlen
    simp at hlen
    omega
  obtain ⟨ys, y, rfl⟩ : ∃ ys y, us = ys ++ [y] := by
    rcases us.eq_nil_or_concat with h | ⟨ys, y, h⟩
    · exact absurd h hne
    · exact ⟨ys, y, by simpa using h⟩
  have hys : ys.length = N - 1 := by
    simp at hlen
    omega
  have hnew : (PolicyBatcher.new (PolicyKind.BySize N) : PolicyBatcher U ID)
      = ⟨⟨[]⟩, PolicyKind.BySize N⟩ := rfl
  have hkeep := newUnits_bySize_keep uid N [] ys (by simp [hys]; omega)
  have hlast : PolicyBatcher.new_unit uid ⟨⟨ys⟩, PolicyKind.BySize N⟩ y
      = (some (ys ++ [y]), ⟨⟨[]⟩, PolicyKind.BySize N⟩) := by
    rw [new_unit_bySize, if_pos (by omega)]
  rw [hnew, newUnits_append, hkeep]
  simp [newUnits, hlast, hys]

/-- Witness for C1 at N = 2 and units 10, 11. -/
theorem size_threshold_first_release_witness :
    (newUnits (fun x : Nat => x) (PolicyBatcher.new (PolicyKind.BySize 2))
      [10, 11]).1 = List.replicate 1 none ++ [some [10, 11]] :=
  size_threshold_first_release (fun x : Nat => x) 2 (by decide) [10, 11] (by decide)

/-- C2: under ByList S, a new_unit call from an arbitrary pending state
releases if and only if, after appending the new unit, the set of distinct
identifiers of the pending units equals S exactly; consequently, on any
run from a fresh facade in which no prefix of the inserted units has
identifier set equal to S (strict subsets and strict supersets included),
every call returns none, however many units are inserted. -/
theorem target_set_release_iff (uid : U → ID) [DecidableEq ID] (S : Finset ID) :
    (∀ (p : List U) (u : U),
        ((PolicyBatcher.new_unit uid ⟨⟨p⟩, PolicyKind.ByList S⟩ u).1.isSome = true
          ↔ ((p ++ [u]).map uid).toFinset = S))
    ∧ (∀ us : List U,
        (∀ k, 0 < k → k ≤ us.length → ((us.take k).map uid).toFinset ≠ S) →
        (newUnits uid (PolicyBatcher.new (PolicyKind.ByList S)) us).1
          = List.replicate us.length none) := by
  constructor
  · intro p u
    rw [new_unit_byList]
    by_cases h : ((p ++ [u]).map uid).toFinset = S
    · rw [if_pos h]
      simpa using h
    · rw [if_neg h]
      simpa using h
  · intro us hus
    have hnew : (PolicyBatcher.new (PolicyKind.ByList S) : PolicyBatcher U ID)
        = ⟨⟨[]⟩, PolicyKind.ByList S⟩ := rfl
    have hk := newUnits_byList_keep uid S [] us (by
      intro k hk1 hk2
      simpa using hus k hk1 hk2)
    rw [hnew, hk]

/-- Witness for C2: a releasing call, a non-releasing call, and the
no-release run of scenario B from the crate's tests. -/
theorem target_set_release_iff_witness :
    ((PolicyBatcher.new_unit (fun x : Nat => x)
        (⟨⟨[10, 11]⟩, PolicyKind.ByList ({10, 11, 12} : Finset Nat)⟩ :
          PolicyBatcher Nat Nat) 12).1.isSome = true
      ↔ (([10, 11] ++ [12]).map (fun x : Nat => x)).toFinset
          = ({10, 11, 12} : Finset Nat))
    ∧ (newUnits (fun x : Nat => x)
        (PolicyBatcher.new (PolicyKind.ByList ({10, 11, 12} : Finset Nat)))
        [10, 9, 12]).1 = List.replicate 3 none :=
  ⟨(target_set_release_iff (fun x : Nat => x) ({10, 11, 12} : Finset Nat)).1 [10, 11] 12,
   (target_set_release_iff (fun x : Nat => x) ({10, 11, 12} : Finset Nat)).2
     [10, 9, 12] (by
       intro k hk1 hk2
       have hk3 : k ≤ 3 := by simpa using hk2
       interval_cases k <;> decide)⟩

/-- C4: under ByList S, on the run from a fresh facade along an insertion
sequence in which no proper prefix has identifier set equal to S but the
full sequence does (so the last insertion causes the first equality),
every call before the last returns none and the last call releases a batch
containing every unit inserted since the start — duplicates by identifier
included — in insertion order. -/
theorem target_set_first_equality_release (uid : U → ID) [DecidableEq ID]
    (S : Finset ID) (us : List U) (hne : us ≠ [])
    (hproper : ∀ k, 0 < k → k < us.length → ((us.take k).map uid).toFinset ≠ S)
    (hfull : (us.map uid).toFinset = S) :
    (newUnits uid (PolicyBatcher.new (PolicyKind.ByList S)) us).1
      = List.replicate (us.length - 1) none ++ [some us] := by
  obtain ⟨ys, y, rfl⟩ : ∃ ys y, us = ys ++ [y] := by
    rcases us.eq_nil_or_concat with h | ⟨ys, y, h⟩
    · exact absurd h hne
    · exact ⟨ys, y, by simpa using h⟩
  have hnew : (PolicyBatcher.new (PolicyKind.ByList S) : PolicyBatcher U ID)
      = ⟨⟨[]⟩, PolicyKind.ByList S⟩ := rfl
  have hkeep := newUnits_byList_keep uid S [] ys (by
    intro k hk1 hk2
    have hlt : k < (ys ++ [y]).length := by simp; omega
    have := hproper k hk1 hlt
    rw [List.take_append_of_le_length hk2] at this
    simpa using this)
  have hlast : PolicyBatcher.new_unit uid ⟨⟨ys⟩, PolicyKind.ByList S⟩ y
      = (some (ys ++ [y]), ⟨⟨[]⟩, PolicyKind.ByList S⟩) := by
    rw [new_unit_byList, if_pos hfull]
  rw [hnew, newUnits_append, hkeep]
  simp [newUnits, hlast]

/-- Witness for C4: scenario C from the crate's tests. -/
theorem target_set_first_equality_release_witness :
    (newUnits (fun x : Nat => x)
      (PolicyBatcher.new (PolicyKind.ByList ({10, 11, 12} : Finset Nat)))
      [10, 11, 12]).1 = List.replicate 2 none ++ [some [10, 11, 12]] :=
  target_set_first_equality_release (fun x : Nat => x)
    ({10, 11, 12} : Finset Nat) [10, 11, 12] (by decide)
    (by
      intro k hk1 hk2
      have hk3 : k < 3 := by simpa using hk2
      interval_cases k <;> decide)
    (by decide)

/-- C10: under ByList with the empty target set, no run from a fresh
facade ever releases: after any insertion the pending sequence is
non-empty, so its identifier set is non-empty and cannot equal the empty
set; the accumulated units remain in the backend and are retrievable only
through the unconditional release. -/
theorem target_set_empty_never_releases (uid : U → ID) [DecidableEq ID]
    (us : List U) :
    (newUnits uid (PolicyBatcher.new (PolicyKind.ByList (∅ : Finset ID))) us).1
      = List.replicate us.length none
    ∧ (newUnits uid
        (PolicyBatcher.new (PolicyKind.ByList (∅ : Finset ID))) us).2.release
      = us := by
  have hnew : (PolicyBatcher.new (PolicyKind.ByList (∅ : Finset ID))
        : PolicyBatcher U ID)
      = ⟨⟨[]⟩, PolicyKind.ByList ∅⟩ := rfl
  have hk := newUnits_byList_keep uid (∅ : Finset ID) [] us (by
    intro k hk1 hk2
    simp only [List.nil_append]
    intro hempty
    rw [List.toFinset_eq_empty_iff, List.map_eq_nil_iff] at hempty
    have hlen : (us.take k).length = 0 := by rw [hempty]; rfl
    rw [List.length_take] at hlen
    omega)
  rw [hnew, hk]
  exact ⟨rfl, rfl⟩

example :
    (newUnits (fun x : Nat => x) (PolicyBatcher.new (PolicyKind.BySize 2))
      [10, 11, 12]).1 = [none, some [10, 11], none] := by decide

example :
    (newUnits (fun x : Nat => x)
      (PolicyBatcher.new (PolicyKind.ByList ({10, 11, 12} : Finset Nat)))
      [10, 9, 12]).1 = [none, none, none] := by decide

example :
    (newUnits (fun x : Nat => x)
      (PolicyBatcher.new (PolicyKind.ByList ({10, 11, 12} : Finset Nat)))
      [10, 11, 12]).1 = [none, none, some [10, 11, 12]] := by decide

end BatcherRs
